import Mathlib

/-!
Shallow embedding of `core/src/object/validation/validator_job.rs`
(the ObjectValidatorJob of the spacedrive repository): data model,
the planning phase (`init`), the per-step executor (`execute_step`)
and the job-identity hash, together with proofs of the specified
properties.

External collaborators (path helpers, the checksum primitive, the
catalog/sync write path) live outside the provided source tree; they
are modelled from the spec where noted.
-/

namespace ValidatorJob

/-- `location::Data` (the catalog's Location row), restricted to the
fields this job touches plus representative extra fields, so that
noninterference of the extra fields is expressible. -/
structure LocationData where
  id : Int
  pub_id : List Nat
  name : Option String
  path : Option String
  instance_id : Option Int
  deriving Repr, DecidableEq

/-- `file_path_for_object_validator::Data`: the catalog row selected for
each step (pub_id, materialized_path, is_dir, name, extension,
integrity_checksum), plus the location id used by the query filters. -/
structure FilePathData where
  pub_id : List Nat
  location_id : Option Int
  materialized_path : Option String
  is_dir : Option Bool
  name : Option String
  extension : Option String
  integrity_checksum : Option String
  deriving Repr, DecidableEq

/-- `ObjectValidatorJobInit`: the init payload `{ location, sub_path }`. -/
structure ObjectValidatorJobInit where
  location : LocationData
  sub_path : Option String
  deriving Repr, DecidableEq

/-- `ValidatorError` (the variants reachable from this file); `FileIo`
models `ValidatorError::FileIO(FileIOError)`, wrapping the offending
absolute path together with the OS-level error. -/
inductive ValidatorError where
  | SubPathOutsideLocation
  | SubPathNotADirectory
  | SubPathNotFound
  | FileIo (path : String) (osError : String)
  deriving Repr, DecidableEq

/-- `JobError` (the variants reachable from this file): `MissingField`
from `maybe_missing` / `IsolatedFilePathData::try_from`, and a wrapped
`ValidatorError`. -/
inductive JobError where
  | MissingField (field : String)
  | Validator (e : ValidatorError)
  deriving Repr, DecidableEq

/-- `JobReportUpdate` progress notifications used by this job. -/
inductive JobReportUpdate where
  | TaskCount (n : Nat)
  | CompletedTaskCount (n : Nat)
  deriving Repr, DecidableEq

/-- A replication-log operation: `sync.shared_update(SyncId { pub_id },
field, value)` — one field mutation for one record identity. -/
structure SyncOp where
  pub_id : List Nat
  field : String
  value : String
  deriving Repr, DecidableEq

/-- Modelled from the spec: the filesystem seen by the path helpers and
the checksum primitive. `files` maps an absolute path to its content or
to an OS-level read error; `dirs` lists the absolute paths that are
directories. -/
structure FileSystem where
  files : List (String × Except String String)
  dirs : List String

/-- Read a file: its recorded content/error, or a not-found OS error. -/
def FileSystem.readFile (fs : FileSystem) (path : String) : Except String String :=
  match fs.files.lookup path with
  | some r => r
  | none => .error "NotFound"

/-- `maybe_missing`: unwrap an optional field or fail with `MissingField`. -/
def maybe_missing {α : Type} (v : Option α) (field : String) : Except JobError α :=
  match v with
  | some a => .ok a
  | none => .error (.MissingField field)

/-- Split a path string into its non-empty `/`-separated components. -/
def pathComponents (p : String) : List String :=
  (p.splitOn "/").filter (fun c => c ≠ "")

/-- Modelled from the spec: resolve path components against a base of
already-resolved components, `..` popping one level and `.` skipped;
`none` when a `..` would escape the base (the location root). -/
def resolveRel : List String → List String → Option (List String)
  | acc, [] => some acc
  | acc, c :: rest =>
    if c = "." then resolveRel acc rest
    else if c = ".." then
      match acc with
      | [] => none
      | _ => resolveRel acc.dropLast rest
    else resolveRel (acc ++ [c]) rest

/-- Join a root path with resolved relative components. -/
def joinPath (root : String) (rel : List String) : String :=
  root ++ "/" ++ String.intercalate "/" rel

/-- `IsolatedFilePathData` for the resolved sub-path: location id plus
the path components relative to the location root. -/
structure IsolatedFilePathData where
  location_id : Int
  rel : List String
  deriving Repr, DecidableEq

/-- `materialized_path_for_children`: the materialized-path string under
which every child of this directory lives ("/" for the root itself,
"/a/b/" for the directory at relative components [a, b]). -/
def materialized_path_for_children (iso : IsolatedFilePathData) : String :=
  match iso.rel with
  | [] => "/"
  | comps => "/" ++ String.intercalate "/" comps ++ "/"

/-- Modelled from the spec: `ensure_sub_path_is_in_location` — resolve
the sub-path against the location root, failing with
`SubPathOutsideLocation` when resolution escapes the root. Returns the
resolved components relative to the root. -/
def ensure_sub_path_is_in_location (sub_path : String) :
    Except ValidatorError (List String) :=
  match resolveRel [] (pathComponents sub_path) with
  | some rel => .ok rel
  | none => .error .SubPathOutsideLocation

/-- Modelled from the spec: `ensure_sub_path_is_directory` — the
resolved absolute path must be a directory on the filesystem. -/
def ensure_sub_path_is_directory (fs : FileSystem) (location_path : String)
    (rel : List String) : Except ValidatorError Unit :=
  if joinPath location_path rel ∈ fs.dirs then .ok ()
  else .error .SubPathNotADirectory

/-- The materialized-children string of a directory catalog record
(its own materialized_path ++ name ++ "/"), used to match a record
against an isolated sub-path. -/
def dirRecordChildren (fp : FilePathData) : Option String :=
  match fp.materialized_path, fp.name with
  | some mp, some n => some (mp ++ n ++ "/")
  | _, _ => none

/-- Modelled from the spec: `ensure_file_path_exists` — some catalog
entry (a directory row of this location) must correspond to the
resolved sub-path, else the supplied error (`SubPathNotFound`). -/
def ensure_file_path_exists (catalog : List FilePathData)
    (iso : IsolatedFilePathData) : Except ValidatorError Unit :=
  if catalog.any (fun fp =>
      fp.location_id == some iso.location_id &&
      fp.is_dir == some true &&
      dirRecordChildren fp == some (materialized_path_for_children iso))
  then .ok ()
  else .error .SubPathNotFound

/-- The catalog query predicate of `init`: location id matches, not a
directory, integrity checksum absent, and — when a sub-path scope is
present — materialized path starts with the sub-path's children
materialized path (`chain_optional_iter` drops the absent filter). -/
def stepQueryPred (locId : Int) (pfxScope : Option String)
    (fp : FilePathData) : Bool :=
  fp.location_id == some locId &&
  fp.is_dir == some false &&
  fp.integrity_checksum == none &&
  (match pfxScope with
   | some p =>
     (match fp.materialized_path with
      | some mp => p.isPrefixOf mp
      | none => false)
   | none => true)

/-- The job state threaded through planning and execution: the resolved
location root and id, the catalog (the relevant slice of the database),
the emitted replication-log operations, the progress notifications sent
to the sink, the framework's step cursor, and the step queue. -/
structure ExecState where
  location_id : Int
  location_path : String
  catalog : List FilePathData
  syncLog : List SyncOp
  progress : List JobReportUpdate
  step_number : Nat
  steps : List FilePathData
  deriving Repr, DecidableEq

/-- The sub-path resolution of `init`: `None` when `sub_path` is absent,
empty or root; otherwise the isolated sub-path after the three
validations (in-location, is-directory, exists-in-catalog). -/
def resolveSubPathScope (fs : FileSystem) (catalog : List FilePathData)
    (locId : Int) (location_path : String) (sub_path : Option String) :
    Except JobError (Option IsolatedFilePathData) :=
  match sub_path with
  | some sp =>
    if sp ≠ "" ∧ sp ≠ "/" then
      match ensure_sub_path_is_in_location sp with
      | .error e => .error (.Validator e)
      | .ok rel =>
        match ensure_sub_path_is_directory fs location_path rel with
        | .error e => .error (.Validator e)
        | .ok _ =>
          match ensure_file_path_exists catalog ⟨locId, rel⟩ with
          | .error e => .error (.Validator e)
          | .ok _ => .ok (some ⟨locId, rel⟩)
    else .ok none
  | none => .ok none

/-- `init`: resolve the location path, validate the optional sub-path,
query the catalog for the step queue, record task_count and notify the
progress sink with the total task count. Reads only; the catalog is
never mutated in this phase. -/
def init (fs : FileSystem) (catalog : List FilePathData)
    (d : ObjectValidatorJobInit) : Except JobError ExecState := do
  let location_path ← maybe_missing d.location.path "location.path"
  let maybeSubIso ← resolveSubPathScope fs catalog d.location.id location_path d.sub_path
  let pfxScope := maybeSubIso.map materialized_path_for_children
  let steps := catalog.filter (stepQueryPred d.location.id pfxScope)
  .ok { location_id := d.location.id
        location_path := location_path
        catalog := catalog
        syncLog := []
        progress := [.TaskCount steps.length]
        step_number := 0
        steps := steps }

/-- The relative path string of a step record, as produced by
`IsolatedFilePathData::try_from((location_id, file_path))` and used by
`Path::join`: materialized_path without its leading slash, then the
file name, then ".ext" when an extension is present; fails with
`MissingField` when a required field is absent. -/
def filePathRelativeString (fp : FilePathData) : Except JobError String :=
  match fp.materialized_path, fp.name with
  | some mp, some n =>
    .ok ((mp.drop 1) ++ n ++
      (match fp.extension with
       | some e => if e = "" then "" else "." ++ e
       | none => ""))
  | _, _ => .error (.MissingField "materialized_path or name")

/-- The Prisma field name `file_path::integrity_checksum::NAME`. -/
def integrity_checksum_NAME : String := "integrity_checksum"

/-- The catalog mutation `db.file_path().update(pub_id::equals(..),
[integrity_checksum::set(Some(checksum))])`: set the checksum of every
record with the given pub_id. -/
def updateChecksum (pubId : List Nat) (checksum : String)
    (catalog : List FilePathData) : List FilePathData :=
  catalog.map (fun fp =>
    if fp.pub_id = pubId then { fp with integrity_checksum := some checksum }
    else fp)

/-- `sync.write_op(db, shared_update, update)`: the catalog mutation and
the replication-log emission for the same record identity, issued as one
write unit. -/
def write_op (s : ExecState) (pubId : List Nat) (checksum : String) :
    ExecState :=
  { s with
    catalog := updateChecksum pubId checksum s.catalog
    syncLog := s.syncLog ++ [{ pub_id := pubId
                               field := integrity_checksum_NAME
                               value := checksum }] }

/-- `file_checksum`: read the file at the absolute path and digest its
content. The digest itself is external (a pure deterministic function of
the bytes), passed in as `hashFn`. -/
def file_checksum (hashFn : String → String) (fs : FileSystem)
    (path : String) : Except String String :=
  (fs.readFile path).map hashFn

/-- The body of `execute_step` on one step record: skip when the
planning-time snapshot already carries a checksum; otherwise resolve the
absolute path, compute the checksum (I/O failure wrapped with the path
into `ValidatorError::FileIO`, fatal), and issue the paired
catalog/replication write; in every non-error case notify the progress
sink with `step_number + 1` and advance the cursor (the queue pop and
cursor increment at the step boundary are the job framework's,
modelled from the spec's state machine). -/
def execStepOn (hashFn : String → String) (fs : FileSystem)
    (fp : FilePathData) (s : ExecState) : Except JobError ExecState := do
  let s' ←
    if fp.integrity_checksum.isNone then do
      let rel ← filePathRelativeString fp
      let full_path := s.location_path ++ "/" ++ rel
      match file_checksum hashFn fs full_path with
      | .error e => .error (.Validator (.FileIo full_path e))
      | .ok checksum => .ok (write_op s fp.pub_id checksum)
    else .ok s
  .ok { s' with
        progress := s'.progress ++ [.CompletedTaskCount (s.step_number + 1)]
        step_number := s.step_number + 1 }

/-- `execute_step`: index the first element of the step queue
(`&state.steps[0]` — `none` here models the out-of-bounds panic on an
empty queue), run the step body, and pop the queue at the step
boundary. -/
def execute_step (hashFn : String → String) (fs : FileSystem)
    (s : ExecState) : Option (Except JobError ExecState) :=
  s.steps.head?.map (fun fp =>
    (execStepOn hashFn fs fp s).map (fun s' => { s' with steps := s.steps.tail }))

/-- Run the step bodies for a queue of steps in order, aborting on the
first error (no retry). -/
def runSteps (hashFn : String → String) (fs : FileSystem) :
    List FilePathData → ExecState → Except JobError ExecState
  | [], s => .ok s
  | fp :: rest, s => (execStepOn hashFn fs fp s).bind (runSteps hashFn fs rest)

/-- One full job run: plan via `init`, then execute every queued step to
completion; the final state's queue is exhausted. -/
def runJob (hashFn : String → String) (fs : FileSystem)
    (catalog : List FilePathData) (d : ObjectValidatorJobInit) :
    Except JobError ExecState := do
  let s ← init fs catalog d
  let s' ← runSteps hashFn fs s.steps s
  .ok { s' with steps := [] }

/-- A token fed to the `Hasher` by `impl Hash for ObjectValidatorJobInit`. -/
inductive HashToken where
  | int (i : Int)
  | path (p : String)
  deriving Repr, DecidableEq

/-- `impl Hash for ObjectValidatorJobInit`: hash the location id, then
the sub_path only when present — modelled as the exact token sequence
fed to the hasher. -/
def hashInit (d : ObjectValidatorJobInit) : List HashToken :=
  [.int d.location.id] ++
  (match d.sub_path with
   | some p => [.path p]
   | none => [])

/-- One catalog record can evolve into another during execution: all
fields except the checksum are fixed, and the checksum either stays or
becomes non-absent. -/
def chainTo (a b : FilePathData) : Prop :=
  b.pub_id = a.pub_id ∧ b.location_id = a.location_id ∧
  b.materialized_path = a.materialized_path ∧ b.is_dir = a.is_dir ∧
  b.name = a.name ∧ b.extension = a.extension ∧
  (b.integrity_checksum = a.integrity_checksum ∨ b.integrity_checksum.isSome)

/-! A concrete scenario (the spec's worked example): location 1 at
"/loc" containing a.txt (checksum absent), b.txt (checksum present),
dir/c.txt (checksum absent), plus a directory record for dir. -/

def sceneHash : String → String := fun s => "digest-" ++ s

def sceneFs : FileSystem :=
  { files := [("/loc/a.txt", .ok "alpha"), ("/loc/b.txt", .ok "beta"),
              ("/loc/dir/c.txt", .ok "gamma")]
    dirs := ["/loc", "/loc/dir", "/loc/ghost"] }

def fpA : FilePathData := ⟨[1], some 1, some "/", some false, some "a", some "txt", none⟩

def fpB : FilePathData := ⟨[2], some 1, some "/", some false, some "b", some "txt", some "deadbeef"⟩

def fpD : FilePathData := ⟨[3], some 1, some "/", some true, some "dir", none, none⟩

def fpC : FilePathData := ⟨[4], some 1, some "/dir/", some false, some "c", some "txt", none⟩

def fpM : FilePathData := ⟨[5], some 1, some "/", some false, some "m", some "txt", none⟩

def updA : FilePathData := { fpA with integrity_checksum := some "digest-alpha" }

def updC : FilePathData := { fpC with integrity_checksum := some "digest-gamma" }

def sceneCat : List FilePathData := [fpA, fpB, fpD, fpC]

def sceneLoc : LocationData := ⟨1, [9], some "Main", some "/loc", some 2⟩

def sceneInit : ObjectValidatorJobInit := ⟨sceneLoc, none⟩

def sceneOut : ObjectValidatorJobInit := ⟨sceneLoc, some "../x"⟩

/-- The planning result of the scenario's unscoped run. -/
def scenePlan : ExecState :=
  { location_id := 1
    location_path := "/loc"
    catalog := sceneCat
    syncLog := []
    progress := [.TaskCount 2]
    step_number := 0
    steps := [fpA, fpC] }

/-- The final state of the scenario's unscoped run. -/
def sceneRun1 : ExecState :=
  { location_id := 1
    location_path := "/loc"
    catalog := [updA, fpB, fpD, updC]
    syncLog := [⟨[1], "integrity_checksum", "digest-alpha"⟩,
                ⟨[4], "integrity_checksum", "digest-gamma"⟩]
    progress := [.TaskCount 2, .CompletedTaskCount 1, .CompletedTaskCount 2]
    step_number := 2
    steps := [] }

/-- A state whose next step already carries a checksum. -/
def skipState : ExecState :=
  { location_id := 1
    location_path := "/loc"
    catalog := sceneCat
    syncLog := []
    progress := []
    step_number := 0
    steps := [fpB] }

/-- A state whose next step needs hashing. -/
def hashState : ExecState :=
  { location_id := 1
    location_path := "/loc"
    catalog := [fpA]
    syncLog := []
    progress := []
    step_number := 0
    steps := [fpA] }

/-- The result of executing `hashState`'s single step. -/
def hashOut : ExecState :=
  { location_id := 1
    location_path := "/loc"
    catalog := [updA]
    syncLog := [⟨[1], "integrity_checksum", "digest-alpha"⟩]
    progress := [.CompletedTaskCount 1]
    step_number := 1
    steps := [] }

/-- A state whose next step's file is missing from the filesystem. -/
def missState : ExecState :=
  { location_id := 1
    location_path := "/loc"
    catalog := [fpM]
    syncLog := []
    progress := []
    step_number := 0
    steps := [fpM] }

/-! Helper lemmas on the planning phase. -/

lemma init_eq (fs : FileSystem) (cat : List FilePathData)
    (d : ObjectValidatorJobInit) (lp : String)
    (maybeIso : Option IsolatedFilePathData)
    (hlp : d.location.path = some lp)
    (hscope : resolveSubPathScope fs cat d.location.id lp d.sub_path = .ok maybeIso) :
    init fs cat d = .ok
      { location_id := d.location.id
        location_path := lp
        catalog := cat
        syncLog := []
        progress := [.TaskCount (cat.filter (stepQueryPred d.location.id
          (maybeIso.map materialized_path_for_children))).length]
        step_number := 0
        steps := cat.filter (stepQueryPred d.location.id
          (maybeIso.map materialized_path_for_children)) } := by
  simp [init, maybe_missing, hlp, hscope, Bind.bind, Except.bind]

lemma init_ok_elim (fs : FileSystem) (cat : List FilePathData)
    (d : ObjectValidatorJobInit) (st : ExecState)
    (h : init fs cat d = .ok st) :
    ∃ lp maybeIso, d.location.path = some lp ∧
      resolveSubPathScope fs cat d.location.id lp d.sub_path = .ok maybeIso ∧
      st.location_id = d.location.id ∧ st.location_path = lp ∧
      st.catalog = cat ∧ st.syncLog = [] ∧ st.step_number = 0 ∧
      st.steps = cat.filter (stepQueryPred d.location.id
        (maybeIso.map materialized_path_for_children)) := by
  cases hlp : d.location.path with
  | none => simp [init, maybe_missing, hlp, Bind.bind, Except.bind] at h
  | some lp =>
    cases hscope : resolveSubPathScope fs cat d.location.id lp d.sub_path with
    | error e => simp [init, maybe_missing, hlp, hscope, Bind.bind, Except.bind] at h
    | ok maybeIso =>
      rw [init_eq fs cat d lp maybeIso hlp hscope] at h
      refine ⟨lp, maybeIso, rfl, hscope, ?_⟩
      cases h
      simp

/-- C1: For every planning run, the step queue produced by init contains
exactly the catalog entries whose location id equals the init location's
id, whose is-directory flag is false, and whose checksum field is
absent; when a valid non-empty, non-root sub_path is given (i.e. the
resolved scope is `some iso`), membership is additionally restricted to
entries whose relative (materialized) path lies under the resolved
sub-path. -/
theorem init_step_queue_membership (fs : FileSystem)
    (cat : List FilePathData) (d : ObjectValidatorJobInit) (st : ExecState)
    (h : init fs cat d = .ok st) (fp : FilePathData) :
    ∃ maybeIso, (∃ lp, d.location.path = some lp ∧
      resolveSubPathScope fs cat d.location.id lp d.sub_path = .ok maybeIso) ∧
    (fp ∈ st.steps ↔
      fp ∈ cat ∧ fp.location_id = some d.location.id ∧
      fp.is_dir = some false ∧ fp.integrity_checksum = none ∧
      (∀ iso, maybeIso = some iso →
        ∃ mp, fp.materialized_path = some mp ∧
          String.isPrefixOf (materialized_path_for_children iso) mp = true)) := by
  obtain ⟨lp, maybeIso, hlp, hscope, -, -, -, -, -, hsteps⟩ :=
    init_ok_elim fs cat d st h
  refine ⟨maybeIso, ⟨lp, hlp, hscope⟩, ?_⟩
  rw [hsteps, List.mem_filter]
  constructor
  · rintro ⟨hmem, hpred⟩
    simp only [stepQueryPred, Bool.and_eq_true, beq_iff_eq] at hpred
    obtain ⟨⟨⟨hloc, hdir⟩, hcs⟩, hsc⟩ := hpred
    refine ⟨hmem, hloc, hdir, hcs, ?_⟩
    rintro iso rfl
    cases hmp : fp.materialized_path with
    | none =>
      rw [hmp] at hsc
      simp at hsc
    | some mp =>
      rw [hmp] at hsc
      simp only [Option.map] at hsc
      exact ⟨mp, rfl, hsc⟩
  · rintro ⟨hmem, hloc, hdir, hcs, hsc⟩
    refine ⟨hmem, ?_⟩
    simp only [stepQueryPred, Bool.and_eq_true, beq_iff_eq]
    refine ⟨⟨⟨hloc, hdir⟩, hcs⟩, ?_⟩
    cases maybeIso with
    | none => simp
    | some iso =>
      obtain ⟨mp, hmp, hpf⟩ := hsc iso rfl
      simp [hmp, hpf]

/-- C7: when sub_path is absent, empty or "/", planning performs no
sub-path resolution (none of the sub-path errors can occur: init
succeeds outright given a present location path) and the catalog query
is unscoped. -/
theorem init_unscoped_when_trivial_sub_path (fs : FileSystem)
    (cat : List FilePathData) (d : ObjectValidatorJobInit) (lp : String)
    (hlp : d.location.path = some lp)
    (htriv : d.sub_path = none ∨ d.sub_path = some "" ∨ d.sub_path = some "/") :
    init fs cat d = .ok
      { location_id := d.location.id
        location_path := lp
        catalog := cat
        syncLog := []
        progress := [.TaskCount (cat.filter (stepQueryPred d.location.id none)).length]
        step_number := 0
        steps := cat.filter (stepQueryPred d.location.id none) } := by
  have hscope : resolveSubPathScope fs cat d.location.id lp d.sub_path = .ok none := by
    rcases htriv with h | h | h <;> simp [resolveSubPathScope, h]
  have h := init_eq fs cat d lp none hlp hscope
  exact h

/-- C8: the job-identity hash depends only on the location id and the
sub_path: any two init payloads agreeing on those two fields feed the
hasher the same token sequence, whatever their other fields. -/
theorem hash_depends_only_on_location_id_and_sub_path
    (d1 d2 : ObjectValidatorJobInit)
    (hid : d1.location.id = d2.location.id)
    (hsp : d1.sub_path = d2.sub_path) :
    hashInit d1 = hashInit d2 := by
  simp [hashInit, hid, hsp]

/-- C8 witness: two payloads differing in every other location field
hash identically. -/
theorem hash_depends_only_on_location_id_and_sub_path_witness :
    hashInit ⟨⟨1, [7], some "a", some "/x", some 3⟩, some "s"⟩ =
      hashInit ⟨⟨1, [8], some "b", some "/y", none⟩, some "s"⟩ :=
  hash_depends_only_on_location_id_and_sub_path _ _ rfl rfl

/-- C9: `execute_step` indexes `state.steps[0]` unconditionally; it is
well-defined exactly when the step queue is non-empty, and then the
indexing never fails. -/
theorem execute_step_defined_iff_steps_nonempty (hashFn : String → String)
    (fs : FileSystem) (s : ExecState) :
    (execute_step hashFn fs s).isSome ↔ s.steps ≠ [] := by
  cases h : s.steps <;> simp [execute_step, h]

/-- C10: every record of a step queue produced by init has an absent
checksum (the query selects only such records), so on an unmodified
queue the snapshot-based condition `integrity_checksum.is_none()` is
always true and the skip path is unreachable. -/
theorem init_steps_skip_branch_unreachable (fs : FileSystem)
    (cat : List FilePathData) (d : ObjectValidatorJobInit) (st : ExecState)
    (h : init fs cat d = .ok st) :
    ∀ fp ∈ st.steps, fp.integrity_checksum = none ∧
      fp.integrity_checksum.isNone = true := by
  obtain ⟨lp, maybeIso, -, -, -, -, -, -, -, hsteps⟩ := init_ok_elim fs cat d st h
  intro fp hfp
  rw [hsteps, List.mem_filter] at hfp
  have hpred := hfp.2
  simp only [stepQueryPred, Bool.and_eq_true, beq_iff_eq] at hpred
  exact ⟨hpred.1.2, by rw [hpred.1.2]; rfl⟩

/-! Per-branch evaluation lemmas for the step body. -/

lemma execStepOn_skip (hashFn : String → String) (fs : FileSystem)
    (s : ExecState) (fp : FilePathData) (c : String)
    (hcs : fp.integrity_checksum = some c) :
    execStepOn hashFn fs fp s = .ok
      { s with
        progress := s.progress ++ [.CompletedTaskCount (s.step_number + 1)]
        step_number := s.step_number + 1 } := by
  simp [execStepOn, hcs, Bind.bind, Except.bind]

lemma execStepOn_rel_error (hashFn : String → String) (fs : FileSystem)
    (s : ExecState) (fp : FilePathData) (e : JobError)
    (hcs : fp.integrity_checksum = none)
    (hrel : filePathRelativeString fp = .error e) :
    execStepOn hashFn fs fp s = .error e := by
  simp [execStepOn, hcs, hrel, Bind.bind, Except.bind]

lemma execStepOn_hash_ok (hashFn : String → String) (fs : FileSystem)
    (s : ExecState) (fp : FilePathData) (rel content : String)
    (hcs : fp.integrity_checksum = none)
    (hrel : filePathRelativeString fp = .ok rel)
    (hread : fs.readFile (s.location_path ++ "/" ++ rel) = .ok content) :
    execStepOn hashFn fs fp s = .ok
      { s with
        catalog := updateChecksum fp.pub_id (hashFn content) s.catalog
        syncLog := s.syncLog ++ [{ pub_id := fp.pub_id
                                   field := integrity_checksum_NAME
                                   value := hashFn content }]
        progress := s.progress ++ [.CompletedTaskCount (s.step_number + 1)]
        step_number := s.step_number + 1 } := by
  simp [execStepOn, hcs, hrel, file_checksum, hread, write_op,
    Bind.bind, Except.bind, Except.map]

lemma execStepOn_hash_err (hashFn : String → String) (fs : FileSystem)
    (s : ExecState) (fp : FilePathData) (rel osErr : String)
    (hcs : fp.integrity_checksum = none)
    (hrel : filePathRelativeString fp = .ok rel)
    (hread : fs.readFile (s.location_path ++ "/" ++ rel) = .error osErr) :
    execStepOn hashFn fs fp s = .error
      (.Validator (.FileIo (s.location_path ++ "/" ++ rel) osErr)) := by
  simp [execStepOn, hcs, hrel, file_checksum, hread,
    Bind.bind, Except.bind, Except.map]

/-- C3: on a step whose snapshot already carries a checksum,
`execute_step` performs no hashing and no catalog or replication-log
mutation, yet still advances the cursor and reports the incremented
completed-count; and the progress notification is issued for every
successfully executed step, short-circuit or not. -/
theorem execute_step_skip_no_mutation_still_progress
    (hashFn : String → String) (fs : FileSystem) (s : ExecState)
    (fp : FilePathData) (c : String)
    (hhead : s.steps.head? = some fp)
    (hcs : fp.integrity_checksum = some c) :
    execute_step hashFn fs s = some (.ok
      { s with
        progress := s.progress ++ [.CompletedTaskCount (s.step_number + 1)]
        step_number := s.step_number + 1
        steps := s.steps.tail }) ∧
    (∀ hashFn' (fp' : FilePathData) s',
      s.steps.head? = some fp' →
      execute_step hashFn' fs s = some (.ok s') →
      s'.progress = s.progress ++ [.CompletedTaskCount (s.step_number + 1)]) := by
  constructor
  · rw [execute_step, hhead]
    simp only [Option.map_some']
    rw [execStepOn_skip hashFn fs s fp c hcs]
    rfl
  · intro hashFn' fp' s' hhead' h'
    rw [execute_step, hhead'] at h'
    simp only [Option.map_some'] at h'
    cases hc : fp'.integrity_checksum with
    | some c' =>
      rw [execStepOn_skip hashFn' fs s fp' c' hc] at h'
      simp only [Option.map_some', Except.map, Option.some.injEq,
        Except.ok.injEq] at h'
      subst h'
      rfl
    | none =>
      cases hrel : filePathRelativeString fp' with
      | error e =>
        rw [execStepOn_rel_error hashFn' fs s fp' e hc hrel] at h'
        simp [Except.map] at h'
      | ok rel =>
        cases hread : fs.readFile (s.location_path ++ "/" ++ rel) with
        | error osErr =>
          rw [execStepOn_hash_err hashFn' fs s fp' rel osErr hc hrel hread] at h'
          simp [Except.map] at h'
        | ok content =>
          rw [execStepOn_hash_ok hashFn' fs s fp' rel content hc hrel hread] at h'
          simp only [Option.map_some', Except.map, Option.some.injEq,
            Except.ok.injEq] at h'
          subst h'
          rfl

/-- C4: every step that computes a checksum issues the catalog update
and the replication-log operation as one write unit for the same record
identity (the step's pub_id) and the same field (integrity_checksum)
with the same new value, so every record committed with the new checksum
has a corresponding replication entry. -/
theorem execute_step_dual_write_paired (hashFn : String → String)
    (fs : FileSystem) (s : ExecState) (fp : FilePathData) (s' : ExecState)
    (hhead : s.steps.head? = some fp)
    (hcs : fp.integrity_checksum = none)
    (hout : execute_step hashFn fs s = some (.ok s')) :
    ∃ checksum,
      s'.catalog = updateChecksum fp.pub_id checksum s.catalog ∧
      s'.syncLog = s.syncLog ++ [{ pub_id := fp.pub_id
                                   field := integrity_checksum_NAME
                                   value := checksum }] ∧
      (∀ r ∈ s.catalog, r.pub_id = fp.pub_id →
        { r with integrity_checksum := some checksum } ∈ s'.catalog) := by
  rw [execute_step, hhead] at hout
  simp only [Option.map_some'] at hout
  cases hrel : filePathRelativeString fp with
  | error e =>
    rw [execStepOn_rel_error hashFn fs s fp e hcs hrel] at hout
    simp [Except.map] at hout
  | ok rel =>
    cases hread : fs.readFile (s.location_path ++ "/" ++ rel) with
    | error osErr =>
      rw [execStepOn_hash_err hashFn fs s fp rel osErr hcs hrel hread] at hout
      simp [Except.map] at hout
    | ok content =>
      rw [execStepOn_hash_ok hashFn fs s fp rel content hcs hrel hread] at hout
      simp only [Option.map_some', Except.map, Option.some.injEq,
        Except.ok.injEq] at hout
      subst hout
      refine ⟨hashFn content, rfl, rfl, ?_⟩
      intro r hr hpid
      simp only [updateChecksum]
      exact List.mem_map.mpr ⟨r, hr, by rw [if_pos hpid]⟩

/-- C5: with a present, non-empty, non-root sub_path, planning fails
with SubPathOutsideLocation when resolution escapes the root, with
SubPathNotADirectory when the resolved path is not a directory, and
with SubPathNotFound when no matching catalog entry exists; and any
successful planning leaves the catalog untouched (failures return no
state at all, so no catalog mutation ever occurs in this phase). -/
theorem init_sub_path_errors (fs : FileSystem) (cat : List FilePathData)
    (d : ObjectValidatorJobInit) (lp sp : String)
    (hlp : d.location.path = some lp)
    (hsp : d.sub_path = some sp) (hne : sp ≠ "") (hnr : sp ≠ "/") :
    (resolveRel [] (pathComponents sp) = none →
      init fs cat d = .error (.Validator .SubPathOutsideLocation)) ∧
    (∀ rel, resolveRel [] (pathComponents sp) = some rel →
      joinPath lp rel ∉ fs.dirs →
      init fs cat d = .error (.Validator .SubPathNotADirectory)) ∧
    (∀ rel, resolveRel [] (pathComponents sp) = some rel →
      joinPath lp rel ∈ fs.dirs →
      ensure_file_path_exists cat ⟨d.location.id, rel⟩ = .error .SubPathNotFound →
      init fs cat d = .error (.Validator .SubPathNotFound)) ∧
    (∀ st, init fs cat d = .ok st → st.catalog = cat) := by
  refine ⟨?_, ?_, ?_, ?_⟩
  · intro hout
    simp [init, maybe_missing, hlp, resolveSubPathScope, hsp, hne, hnr,
      ensure_sub_path_is_in_location, hout, Bind.bind, Except.bind]
  · intro rel hres hdir
    simp [init, maybe_missing, hlp, resolveSubPathScope, hsp, hne, hnr,
      ensure_sub_path_is_in_location, hres,
      ensure_sub_path_is_directory, hdir, Bind.bind, Except.bind]
  · intro rel hres hdir hnf
    simp [init, maybe_missing, hlp, resolveSubPathScope, hsp, hne, hnr,
      ensure_sub_path_is_in_location, hres,
      ensure_sub_path_is_directory, hdir, hnf, Bind.bind, Except.bind]
  · intro st hst
    obtain ⟨-, -, -, -, -, -, hcat, -⟩ := init_ok_elim fs cat d st hst
    exact hcat

/-- C6: a step whose checksum computation fails with an I/O error makes
`execute_step` return the typed FileIo error wrapping the OS error and
the offending absolute path; running the queue from that step aborts the
whole job with that same error, attempting no retry and no remaining
step. -/
theorem execute_step_file_io_fatal (hashFn : String → String)
    (fs : FileSystem) (s : ExecState) (fp : FilePathData)
    (rel osErr : String)
    (hhead : s.steps.head? = some fp)
    (hcs : fp.integrity_checksum = none)
    (hrel : filePathRelativeString fp = .ok rel)
    (hread : fs.readFile (s.location_path ++ "/" ++ rel) = .error osErr) :
    execute_step hashFn fs s = some (.error
      (.Validator (.FileIo (s.location_path ++ "/" ++ rel) osErr))) ∧
    (∀ rest, s.steps = fp :: rest →
      runSteps hashFn fs s.steps s = .error
        (.Validator (.FileIo (s.location_path ++ "/" ++ rel) osErr))) := by
  have hbody := execStepOn_hash_err hashFn fs s fp rel osErr hcs hrel hread
  constructor
  · rw [execute_step, hhead]
    simp only [Option.map_some']
    rw [hbody]
    rfl
  · intro rest hsteps
    rw [hsteps, runSteps, hbody]
    rfl

/-! Machinery for idempotence: execution only ever sets absent checksums,
never touching any other field of any catalog record. -/

lemma chainTo_refl (a : FilePathData) : chainTo a a :=
  ⟨rfl, rfl, rfl, rfl, rfl, rfl, Or.inl rfl⟩

lemma chainTo_trans {a b c : FilePathData} (h1 : chainTo a b)
    (h2 : chainTo b c) : chainTo a c := by
  obtain ⟨p1, l1, m1, d1, n1, e1, c1⟩ := h1
  obtain ⟨p2, l2, m2, d2, n2, e2, c2⟩ := h2
  refine ⟨p2.trans p1, l2.trans l1, m2.trans m1, d2.trans d1,
    n2.trans n1, e2.trans e1, ?_⟩
  rcases c2 with hc | hc
  · rcases c1 with hc' | hc'
    · exact Or.inl (hc.trans hc')
    · exact Or.inr (hc ▸ hc')
  · exact Or.inr hc

lemma forall₂_chainTo_refl (l : List FilePathData) :
    List.Forall₂ chainTo l l :=
  List.forall₂_same.mpr (fun a _ => chainTo_refl a)

lemma forall₂_chainTo_trans {l1 l2 l3 : List FilePathData}
    (h1 : List.Forall₂ chainTo l1 l2) (h2 : List.Forall₂ chainTo l2 l3) :
    List.Forall₂ chainTo l1 l3 := by
  induction h1 generalizing l3 with
  | nil => cases h2; exact .nil
  | cons hab _ ih =>
    cases h2 with
    | cons hbc htail => exact .cons (chainTo_trans hab hbc) (ih htail)

lemma forall₂_chainTo_mem_right {l1 l2 : List FilePathData}
    {b : FilePathData} (h : List.Forall₂ chainTo l1 l2) (hb : b ∈ l2) :
    ∃ a ∈ l1, chainTo a b := by
  induction h with
  | nil => cases hb
  | cons hab _ ih =>
    rcases List.mem_cons.mp hb with rfl | hb'
    · exact ⟨_, List.mem_cons_self _ _, hab⟩
    · obtain ⟨a, ha, hc⟩ := ih hb'
      exact ⟨a, List.mem_cons_of_mem _ ha, hc⟩

lemma updateChecksum_chain (pid : List Nat) (cs : String)
    (cat : List FilePathData) :
    List.Forall₂ chainTo cat (updateChecksum pid cs cat) := by
  unfold updateChecksum
  induction cat with
  | nil => exact .nil
  | cons a t ih =>
    refine List.Forall₂.cons ?_ ih
    by_cases h : a.pub_id = pid
    · simp [h, chainTo]
    · simp [h, chainTo_refl]

/-- A successful step body can only set absent checksums in the catalog. -/
lemma execStepOn_chain (hashFn : String → String) (fs : FileSystem)
    (fp : FilePathData) (s s1 : ExecState)
    (h : execStepOn hashFn fs fp s = .ok s1) :
    List.Forall₂ chainTo s.catalog s1.catalog := by
  cases hcs : fp.integrity_checksum with
  | some c =>
    rw [execStepOn_skip hashFn fs s fp c hcs] at h
    cases h
    exact forall₂_chainTo_refl _
  | none =>
    cases hrel : filePathRelativeString fp with
    | error e => rw [execStepOn_rel_error hashFn fs s fp e hcs hrel] at h; cases h
    | ok rel =>
      cases hread : fs.readFile (s.location_path ++ "/" ++ rel) with
      | error osErr =>
        rw [execStepOn_hash_err hashFn fs s fp rel osErr hcs hrel hread] at h
        cases h
      | ok content =>
        rw [execStepOn_hash_ok hashFn fs s fp rel content hcs hrel hread] at h
        cases h
        exact updateChecksum_chain _ _ _

/-- A successful step body on a queue record with absent checksum sets
the checksum of every matching catalog record. -/
lemma execStepOn_none_catalog (hashFn : String → String) (fs : FileSystem)
    (fp : FilePathData) (s s1 : ExecState)
    (hcs : fp.integrity_checksum = none)
    (h : execStepOn hashFn fs fp s = .ok s1) :
    ∃ cs, s1.catalog = updateChecksum fp.pub_id cs s.catalog := by
  cases hrel : filePathRelativeString fp with
  | error e => rw [execStepOn_rel_error hashFn fs s fp e hcs hrel] at h; cases h
  | ok rel =>
    cases hread : fs.readFile (s.location_path ++ "/" ++ rel) with
    | error osErr =>
      rw [execStepOn_hash_err hashFn fs s fp rel osErr hcs hrel hread] at h
      cases h
    | ok content =>
      rw [execStepOn_hash_ok hashFn fs s fp rel content hcs hrel hread] at h
      cases h
      exact ⟨hashFn content, rfl⟩

lemma runSteps_chain (hashFn : String → String) (fs : FileSystem) :
    ∀ (steps : List FilePathData) (s s' : ExecState),
    runSteps hashFn fs steps s = .ok s' →
    List.Forall₂ chainTo s.catalog s'.catalog := by
  intro steps
  induction steps with
  | nil =>
    intro s s' h
    rw [runSteps] at h
    cases h
    exact forall₂_chainTo_refl _
  | cons fp rest ih =>
    intro s s' h
    rw [runSteps] at h
    cases hstep : execStepOn hashFn fs fp s with
    | error e => rw [hstep] at h; cases h
    | ok s1 =>
      rw [hstep] at h
      exact forall₂_chainTo_trans (execStepOn_chain hashFn fs fp s s1 hstep)
        (ih s1 s' h)

/-- After a successful run over a queue of checksum-absent records,
every catalog record sharing a pub_id with a processed record carries a
checksum. -/
lemma runSteps_sets_checksum (hashFn : String → String) (fs : FileSystem) :
    ∀ (steps : List FilePathData) (s s' : ExecState),
    (∀ fp ∈ steps, fp.integrity_checksum = none) →
    runSteps hashFn fs steps s = .ok s' →
    ∀ fp ∈ steps, ∀ r' ∈ s'.catalog, r'.pub_id = fp.pub_id →
      r'.integrity_checksum.isSome = true := by
  intro steps
  induction steps with
  | nil => intro s s' _ _ fp hfp; cases hfp
  | cons fp0 rest ih =>
    intro s s' hall h fp hfp r' hr' hpid
    rw [runSteps] at h
    cases hstep : execStepOn hashFn fs fp0 s with
    | error e => rw [hstep] at h; cases h
    | ok s1 =>
      rw [hstep] at h
      rcases List.mem_cons.mp hfp with rfl | hfp'
      · obtain ⟨cs, hcat1⟩ := execStepOn_none_catalog hashFn fs fp s s1
          (hall fp (List.mem_cons_self _ _)) hstep
        have hchain := runSteps_chain hashFn fs rest s1 s' h
        obtain ⟨b, hb, hbc⟩ := forall₂_chainTo_mem_right hchain hr'
        rw [hcat1] at hb
        unfold updateChecksum at hb
        obtain ⟨r0, hr0, heq⟩ := List.mem_map.mp hb
        by_cases hp : r0.pub_id = fp.pub_id
        · rw [if_pos hp] at heq
          have hbsome : b.integrity_checksum = some cs := by rw [← heq]
          rcases hbc.2.2.2.2.2.2 with hc | hc
          · rw [hc, hbsome]; rfl
          · exact hc
        · rw [if_neg hp] at heq
          exfalso
          apply hp
          rw [← heq] at hbc
          exact (hbc.1.symm.trans hpid).symm ▸ rfl
      · exact ih s1 s' (fun fp' h' => hall fp' (List.mem_cons_of_mem _ h')) h
          fp hfp' r' hr' hpid

/-- After a successful run over a queue of checksum-absent records, any
catalog record still matching the planning query traces back to an
original matching record none of the processed steps shares a pub_id
with. -/
lemma runSteps_no_survivor (hashFn : String → String) (fs : FileSystem)
    (locId : Int) (scope : Option String) :
    ∀ (steps : List FilePathData) (s s' : ExecState),
    (∀ fp ∈ steps, fp.integrity_checksum = none) →
    runSteps hashFn fs steps s = .ok s' →
    ∀ r' ∈ s'.catalog, stepQueryPred locId scope r' = true →
    ∃ r ∈ s.catalog, stepQueryPred locId scope r = true ∧
      r.pub_id = r'.pub_id ∧ ∀ fp ∈ steps, fp.pub_id ≠ r.pub_id := by
  intro steps
  induction steps with
  | nil =>
    intro s s' _ h r' hr' hpred
    rw [runSteps] at h
    cases h
    exact ⟨r', hr', hpred, rfl, by simp⟩
  | cons fp rest ih =>
    intro s s' hall h r' hr' hpred
    rw [runSteps] at h
    cases hstep : execStepOn hashFn fs fp s with
    | error e => rw [hstep] at h; cases h
    | ok s1 =>
      rw [hstep] at h
      obtain ⟨cs, hcat1⟩ := execStepOn_none_catalog hashFn fs fp s s1
        (hall fp (List.mem_cons_self _ _)) hstep
      obtain ⟨r1, hr1mem, hr1pred, hr1pid, hr1not⟩ :=
        ih s1 s' (fun fp' h' => hall fp' (List.mem_cons_of_mem _ h')) h r' hr' hpred
      rw [hcat1] at hr1mem
      unfold updateChecksum at hr1mem
      obtain ⟨r0, hr0mem, hr0eq⟩ := List.mem_map.mp hr1mem
      by_cases hp : r0.pub_id = fp.pub_id
      · exfalso
        rw [if_pos hp] at hr0eq
        have : r1.integrity_checksum = some cs := by rw [← hr0eq]
        simp [stepQueryPred, this] at hr1pred
      · rw [if_neg hp] at hr0eq
        subst hr0eq
        refine ⟨r0, hr0mem, hr1pred, hr1pid, ?_⟩
        intro fp' hfp'
        rcases List.mem_cons.mp hfp' with rfl | hfp''
        · exact fun hpe => hp hpe.symm
        · exact hr1not fp' hfp''

/-- The sub-path check of planning reads only fields execution never
changes, so it gives the same answer on the evolved catalog. -/
lemma ensure_file_path_exists_chain {cat cat' : List FilePathData}
    (h : List.Forall₂ chainTo cat cat') (iso : IsolatedFilePathData) :
    ensure_file_path_exists cat' iso = ensure_file_path_exists cat iso := by
  unfold ensure_file_path_exists
  have hany : ∀ (q : FilePathData → Bool),
      (∀ a b, chainTo a b → q b = q a) →
      cat'.any q = cat.any q := by
    intro q hq
    induction h with
    | nil => rfl
    | cons hab _ ih => simp only [List.any_cons, ih, hq _ _ hab]
  rw [hany _ ?_]
  intro a b hab
  obtain ⟨-, hloc, hmp, hdir, hname, -, -⟩ := hab
  simp [dirRecordChildren, hloc, hmp, hdir, hname]

lemma resolveSubPathScope_chain {cat cat' : List FilePathData}
    (fs : FileSystem) (locId : Int) (lp : String) (sp : Option String)
    (h : List.Forall₂ chainTo cat cat') :
    resolveSubPathScope fs cat' locId lp sp =
      resolveSubPathScope fs cat locId lp sp := by
  unfold resolveSubPathScope
  rcases sp with - | s
  · rfl
  · by_cases hcond : s ≠ "" ∧ s ≠ "/"
    · simp only [if_pos hcond]
      rcases hin : ensure_sub_path_is_in_location s with e | rel
      · simp [hin]
      · rcases hd : ensure_sub_path_is_directory fs lp rel with e | u
        · simp [hin, hd]
        · simp [hin, hd, ensure_file_path_exists_chain h]
    · simp only [if_neg hcond]

/-- C2: running the job twice over an unmodified location is idempotent:
after the first run completes, every file it processed has a non-absent
checksum, a second planning pass over the resulting catalog produces an
empty step queue, and the final checksums of the two runs are
identical. -/
theorem validator_job_idempotent (hashFn : String → String)
    (fs : FileSystem) (cat : List FilePathData)
    (d : ObjectValidatorJobInit) (s1 : ExecState) (lp : String)
    (maybeIso : Option IsolatedFilePathData)
    (hlp : d.location.path = some lp)
    (hscope : resolveSubPathScope fs cat d.location.id lp d.sub_path = .ok maybeIso)
    (h : runJob hashFn fs cat d = .ok s1) :
    (∀ fp ∈ cat.filter (stepQueryPred d.location.id
        (maybeIso.map materialized_path_for_children)),
      ∀ r' ∈ s1.catalog, r'.pub_id = fp.pub_id →
        r'.integrity_checksum.isSome = true) ∧
    (∃ st2, init fs s1.catalog d = .ok st2 ∧ st2.steps = []) ∧
    (∃ s2, runJob hashFn fs s1.catalog d = .ok s2 ∧ s2.catalog = s1.catalog) := by
  have hinit := init_eq fs cat d lp maybeIso hlp hscope
  rw [runJob, hinit] at h
  simp only [Bind.bind, Except.bind] at h
  cases hrun : runSteps hashFn fs (cat.filter (stepQueryPred d.location.id
      (maybeIso.map materialized_path_for_children)))
      { location_id := d.location.id
        location_path := lp
        catalog := cat
        syncLog := []
        progress := [.TaskCount (cat.filter (stepQueryPred d.location.id
          (maybeIso.map materialized_path_for_children))).length]
        step_number := 0
        steps := cat.filter (stepQueryPred d.location.id
          (maybeIso.map materialized_path_for_children)) } with
  | error e => rw [hrun] at h; cases h
  | ok s1' =>
    rw [hrun] at h
    cases h
    have hall : ∀ fp ∈ cat.filter (stepQueryPred d.location.id
        (maybeIso.map materialized_path_for_children)),
        fp.integrity_checksum = none := by
      intro fp hfp
      have := (List.mem_filter.mp hfp).2
      simp only [stepQueryPred, Bool.and_eq_true, beq_iff_eq] at this
      exact this.1.2
    have hchain : List.Forall₂ chainTo cat s1'.catalog :=
      runSteps_chain hashFn fs _ _ _ hrun
    have hscope2 : resolveSubPathScope fs s1'.catalog d.location.id lp d.sub_path
        = .ok maybeIso := by
      rw [resolveSubPathScope_chain fs d.location.id lp d.sub_path hchain]
      exact hscope
    have hempty : s1'.catalog.filter (stepQueryPred d.location.id
        (maybeIso.map materialized_path_for_children)) = [] := by
      rw [List.filter_eq_nil_iff]
      intro r' hr' hpred
      obtain ⟨r, hrmem, hrpred, -, hrnot⟩ :=
        runSteps_no_survivor hashFn fs d.location.id
          (maybeIso.map materialized_path_for_children) _ _ _ hall hrun r' hr' hpred
      exact hrnot r (List.mem_filter.mpr ⟨hrmem, hrpred⟩) rfl
    have hinit2 := init_eq fs s1'.catalog d lp maybeIso hlp hscope2
    refine ⟨?_, ?_, ?_⟩
    · intro fp hfp r' hr' hpid
      exact runSteps_sets_checksum hashFn fs _ _ _ hall hrun fp hfp r' hr' hpid
    · exact ⟨_, hinit2, hempty⟩
    · refine ⟨{ location_id := d.location.id
                location_path := lp
                catalog := s1'.catalog
                syncLog := []
                progress := [.TaskCount 0]
                step_number := 0
                steps := [] }, ?_, rfl⟩
      rw [runJob, hinit2]
      simp only [Bind.bind, Except.bind, hempty, runSteps, List.length_nil]

/-! Witnesses: each theorem with hypotheses applied at the concrete
scenario. -/

/-- C1 witness. -/
theorem init_step_queue_membership_witness :
    init sceneFs sceneCat sceneInit = .ok scenePlan ∧
    (∃ maybeIso, (∃ lp, sceneInit.location.path = some lp ∧
        resolveSubPathScope sceneFs sceneCat sceneInit.location.id lp
          sceneInit.sub_path = .ok maybeIso) ∧
      (fpA ∈ scenePlan.steps ↔
        fpA ∈ sceneCat ∧ fpA.location_id = some sceneInit.location.id ∧
        fpA.is_dir = some false ∧ fpA.integrity_checksum = none ∧
        (∀ iso, maybeIso = some iso →
          ∃ mp, fpA.materialized_path = some mp ∧
            String.isPrefixOf (materialized_path_for_children iso) mp = true))) :=
  ⟨rfl,
   init_step_queue_membership sceneFs sceneCat sceneInit scenePlan rfl fpA⟩

/-- C2 witness. -/
theorem validator_job_idempotent_witness :
    sceneInit.location.path = some "/loc" ∧
    resolveSubPathScope sceneFs sceneCat sceneInit.location.id "/loc"
      sceneInit.sub_path = .ok none ∧
    runJob sceneHash sceneFs sceneCat sceneInit = .ok sceneRun1 ∧
    ((∀ fp ∈ sceneCat.filter (stepQueryPred sceneInit.location.id
        ((none : Option IsolatedFilePathData).map materialized_path_for_children)),
      ∀ r' ∈ sceneRun1.catalog, r'.pub_id = fp.pub_id →
        r'.integrity_checksum.isSome = true) ∧
     (∃ st2, init sceneFs sceneRun1.catalog sceneInit = .ok st2 ∧ st2.steps = []) ∧
     (∃ s2, runJob sceneHash sceneFs sceneRun1.catalog sceneInit = .ok s2 ∧
        s2.catalog = sceneRun1.catalog)) :=
  ⟨rfl, rfl, rfl,
   validator_job_idempotent sceneHash sceneFs sceneCat sceneInit sceneRun1
     "/loc" none rfl rfl rfl⟩

/-- C3 witness. -/
theorem execute_step_skip_no_mutation_still_progress_witness :
    skipState.steps.head? = some fpB ∧
    fpB.integrity_checksum = some "deadbeef" ∧
    (execute_step sceneHash sceneFs skipState = some (.ok
      { skipState with
        progress := skipState.progress ++
          [.CompletedTaskCount (skipState.step_number + 1)]
        step_number := skipState.step_number + 1
        steps := skipState.steps.tail }) ∧
     (∀ hashFn' (fp' : FilePathData) s',
        skipState.steps.head? = some fp' →
        execute_step hashFn' sceneFs skipState = some (.ok s') →
        s'.progress = skipState.progress ++
          [.CompletedTaskCount (skipState.step_number + 1)])) :=
  ⟨rfl, rfl,
   execute_step_skip_no_mutation_still_progress sceneHash sceneFs skipState
     fpB "deadbeef" rfl rfl⟩

/-- C4 witness. -/
theorem execute_step_dual_write_paired_witness :
    hashState.steps.head? = some fpA ∧
    fpA.integrity_checksum = none ∧
    execute_step sceneHash sceneFs hashState = some (.ok hashOut) ∧
    (∃ checksum,
      hashOut.catalog = updateChecksum fpA.pub_id checksum hashState.catalog ∧
      hashOut.syncLog = hashState.syncLog ++
        [{ pub_id := fpA.pub_id
           field := integrity_checksum_NAME
           value := checksum }] ∧
      (∀ r ∈ hashState.catalog, r.pub_id = fpA.pub_id →
        { r with integrity_checksum := some checksum } ∈ hashOut.catalog)) :=
  ⟨rfl, rfl, rfl,
   execute_step_dual_write_paired sceneHash sceneFs hashState fpA hashOut
     rfl rfl rfl⟩

/-- C5 witness. -/
theorem init_sub_path_errors_witness :
    sceneOut.location.path = some "/loc" ∧
    sceneOut.sub_path = some "../x" ∧
    ("../x" : String) ≠ "" ∧ ("../x" : String) ≠ "/" ∧
    ((resolveRel [] (pathComponents "../x") = none →
        init sceneFs sceneCat sceneOut = .error (.Validator .SubPathOutsideLocation)) ∧
     (∀ rel, resolveRel [] (pathComponents "../x") = some rel →
        joinPath "/loc" rel ∉ sceneFs.dirs →
        init sceneFs sceneCat sceneOut = .error (.Validator .SubPathNotADirectory)) ∧
     (∀ rel, resolveRel [] (pathComponents "../x") = some rel →
        joinPath "/loc" rel ∈ sceneFs.dirs →
        ensure_file_path_exists sceneCat ⟨sceneOut.location.id, rel⟩ =
          .error .SubPathNotFound →
        init sceneFs sceneCat sceneOut = .error (.Validator .SubPathNotFound)) ∧
     (∀ st, init sceneFs sceneCat sceneOut = .ok st → st.catalog = sceneCat)) :=
  ⟨rfl, rfl, by decide, by decide,
   init_sub_path_errors sceneFs sceneCat sceneOut "/loc" "../x" rfl rfl
     (by decide) (by decide)⟩

/-- C6 witness. -/
theorem execute_step_file_io_fatal_witness :
    missState.steps.head? = some fpM ∧
    fpM.integrity_checksum = none ∧
    filePathRelativeString fpM = .ok "m.txt" ∧
    sceneFs.readFile (missState.location_path ++ "/" ++ "m.txt") =
      .error "NotFound" ∧
    (execute_step sceneHash sceneFs missState = some (.error
      (.Validator (.FileIo (missState.location_path ++ "/" ++ "m.txt")
        "NotFound"))) ∧
     (∀ rest, missState.steps = fpM :: rest →
        runSteps sceneHash sceneFs missState.steps missState = .error
          (.Validator (.FileIo (missState.location_path ++ "/" ++ "m.txt")
            "NotFound")))) :=
  ⟨rfl, rfl, rfl, rfl,
   execute_step_file_io_fatal sceneHash sceneFs missState fpM "m.txt"
     "NotFound" rfl rfl rfl rfl⟩

/-- C7 witness. -/
theorem init_unscoped_when_trivial_sub_path_witness :
    sceneInit.location.path = some "/loc" ∧
    (sceneInit.sub_path = none ∨ sceneInit.sub_path = some "" ∨
      sceneInit.sub_path = some "/") ∧
    init sceneFs sceneCat sceneInit = .ok
      { location_id := sceneInit.location.id
        location_path := "/loc"
        catalog := sceneCat
        syncLog := []
        progress := [.TaskCount (sceneCat.filter
          (stepQueryPred sceneInit.location.id none)).length]
        step_number := 0
        steps := sceneCat.filter (stepQueryPred sceneInit.location.id none) } :=
  ⟨rfl, Or.inl rfl,
   init_unscoped_when_trivial_sub_path sceneFs sceneCat sceneInit "/loc"
     rfl (Or.inl rfl)⟩

/-- C10 witness. -/
theorem init_steps_skip_branch_unreachable_witness :
    init sceneFs sceneCat sceneInit = .ok scenePlan ∧
    (∀ fp ∈ scenePlan.steps, fp.integrity_checksum = none ∧
      fp.integrity_checksum.isNone = true) :=
  ⟨rfl,
   init_steps_skip_branch_unreachable sceneFs sceneCat sceneInit scenePlan
     rfl⟩

end ValidatorJob
